import Mathlib

/-!
# Verification of the meal-tracker backend (`src/food_tracker.py`)

Shallow embedding of the data model and the route handlers of the Flask +
SQLite food tracker.  The SQLite table `entries` is modelled as a list of
rows in rowid (insertion) order together with the next AUTOINCREMENT id;
each route handler becomes a pure function from the store (and the decoded
request payload) to a result and the new store.
-/

namespace FoodTracker

/-- Models Python `str.strip()` (restricted to ASCII whitespace): drop
leading and trailing whitespace characters. -/
def pyStrip (s : String) : String :=
  ⟨((s.data.dropWhile Char.isWhitespace).reverse.dropWhile Char.isWhitespace).reverse⟩

/-- Digits of a decimal numeral to the `Nat` they denote (`"007"` ↦ `7`). -/
def natOfDigits (ds : List Char) : Nat :=
  ds.foldl (fun n c => n * 10 + (c.toNat - '0'.toNat)) 0

/-- One row of the `entries` table. -/
structure Entry where
  id : Nat
  day : String
  meal : String
  ts : Int
  note : String
  calories : Int
  deriving DecidableEq, Repr

/-- The database: rows in rowid (insertion) order plus the next
AUTOINCREMENT rowid.  SQLite AUTOINCREMENT never reuses ids. -/
structure Store where
  entries : List Entry
  nextId : Nat
  deriving DecidableEq, Repr

/-- The freshly created table (first AUTOINCREMENT rowid is 1). -/
def store0 : Store := ⟨[], 1⟩

/-- The JSON value found under `"ts"` in a request body, abstracted by
how `int(...)` treats it.  `missing`: the key is absent or `null`, so
`data.get("ts")` is `None`.  `intVal`: a JSON integer (a bool behaves
the same: `int(True) = 1`).  `finiteFloat`: a finite float, which
`int()` truncates toward zero — we carry the truncated value.
`infFloat`: an infinite float (JSON `1e400` or `Infinity` both parse to
`float('inf')`), on which `int()` raises `OverflowError`.  `nanFloat`:
`float('nan')`, on which `int()` raises `ValueError`.  `numStr`: a
string `int()` parses, carrying its value (sign, surrounding
whitespace, PEP-515 underscores and Unicode decimal digits included).
`badStr`: a string on which `int()` raises `ValueError`.
`nonCoercible`: any other JSON value (array, object), on which `int()`
raises `TypeError`. -/
inductive TsField where
  | missing
  | intVal (i : Int)
  | finiteFloat (trunc : Int)
  | infFloat
  | nanFloat
  | numStr (i : Int)
  | badStr
  | nonCoercible
  deriving DecidableEq, Repr

/-- The JSON value found under `"calories"`, abstracted exactly like
`TsField` (here `missing` means `data.get("calories", 0)` supplies the
default `0`). -/
inductive CalField where
  | missing
  | intVal (i : Int)
  | finiteFloat (trunc : Int)
  | infFloat
  | nanFloat
  | numStr (i : Int)
  | badStr
  | nonCoercible
  deriving DecidableEq, Repr

/-- Outcome of `int(v)` as the handlers observe it: a value, an
exception the `except (TypeError, ValueError)` clause catches, or an
`OverflowError` it does not catch, which escapes the handler and makes
Flask answer HTTP 500. -/
inductive CoerceOut where
  | ok (i : Int)
  | caught
  | uncaught
  deriving DecidableEq, Repr

/-- `true` when `int(v)` succeeded. -/
def CoerceOut.isOk : CoerceOut → Bool
  | .ok _ => true
  | _ => false

/-- A decoded request body for POST/PUT `/api/entries`.  `day`, `meal`
and `note` are the results of `str(data.get(...) or "")` (absent keys
decode to `""`). -/
structure Request where
  day : String
  meal : String
  ts : TsField
  note : String
  calories : CalField
  deriving DecidableEq, Repr

/-- `ts is None` in the handlers. -/
def TsField.isNone : TsField → Bool
  | .missing => true
  | _ => false

/-- `int(ts)` in the handlers.  `.missing` never reaches `int()` (the
`ts is None` check fires first); were it to, `int(None)` raises a
caught `TypeError`, so `.caught` is faithful there too. -/
def coerceTs : TsField → CoerceOut
  | .missing => .caught
  | .intVal i => .ok i
  | .finiteFloat t => .ok t
  | .infFloat => .uncaught
  | .nanFloat => .caught
  | .numStr i => .ok i
  | .badStr => .caught
  | .nonCoercible => .caught

/-- `true` when `int(calories)` raises the uncaught `OverflowError`
(an infinite float): the handler crashes before touching the store. -/
def calRaises : CalField → Bool
  | .infFloat => true
  | _ => false

/-- `try: cal_int = int(calories); if cal_int < 0: cal_int = 0
except (TypeError, ValueError): cal_int = 0` in the handlers (with
`data.get("calories", 0)` supplying `0` when the key is absent).  Only
meaningful when `calRaises` is `false`; the `infFloat` row is dead
code kept for totality. -/
def coerceCal : CalField → Int
  | .missing => 0
  | .intVal i => if i < 0 then 0 else i
  | .finiteFloat t => if t < 0 then 0 else t
  | .infFloat => 0
  | .nanFloat => 0
  | .numStr i => if i < 0 then 0 else i
  | .badStr => 0
  | .nonCoercible => 0

/-- Failure outcomes of a handler: a 400 or 404 JSON error response,
or an exception that escapes the handler (`OverflowError` from
`int(...)`, `ValueError`/`OverflowError` from date arithmetic), which
Flask turns into an HTTP 500. -/
inductive ApiError where
  | badRequest (msg : String)
  | notFound (msg : String)
  | serverError
  deriving DecidableEq, Repr

/-- The validation/coercion prologue shared verbatim by `add_entry` and
`update_entry`: trim `day`/`meal`/`note`, reject empty `day`/`meal` or
missing `ts` (400), coerce `ts` (400 on a caught `TypeError`/
`ValueError`, crash on the uncaught `OverflowError`), then coerce
`calories` (crash on an infinite float, clamp otherwise).  All of this
happens before the database is touched.  Returns the values bound to
the SQL parameters. -/
def checkReq (r : Request) : Except ApiError (String × String × Int × String × Int) :=
  if pyStrip r.day = "" ∨ pyStrip r.meal = "" ∨ r.ts.isNone then
    .error (.badRequest "Missing day/meal/ts")
  else
    match coerceTs r.ts with
    | .caught => .error (.badRequest "ts must be an integer (unix ms)")
    | .uncaught => .error .serverError
    | .ok tsInt =>
        if calRaises r.calories then .error .serverError
        else .ok (pyStrip r.day, pyStrip r.meal, tsInt, pyStrip r.note, coerceCal r.calories)

/-- POST `/api/entries` (`add_entry`): validate, then
`INSERT INTO entries(day, meal, ts, note, calories)`; returns the new
rowid.  On a 400 the store is untouched. -/
def addEntry (s : Store) (r : Request) : Except ApiError Nat × Store :=
  match checkReq r with
  | .error e => (.error e, s)
  | .ok (day, meal, tsInt, note, cal) =>
      (.ok s.nextId, ⟨s.entries ++ [⟨s.nextId, day, meal, tsInt, note, cal⟩], s.nextId + 1⟩)

/-- PUT `/api/entries/<id>` (`update_entry`): validate, then
`UPDATE entries SET day=?, meal=?, ts=?, note=?, calories=? WHERE id=?`;
404 when the UPDATE touches no row (`cur.rowcount == 0`). -/
def updateEntry (s : Store) (entryId : Nat) (r : Request) : Except ApiError Unit × Store :=
  match checkReq r with
  | .error e => (.error e, s)
  | .ok (day, meal, tsInt, note, cal) =>
      if s.entries.any (fun e => e.id == entryId) then
        (.ok (), { s with
          entries := s.entries.map (fun e =>
            if e.id = entryId then
              { e with day := day, meal := meal, ts := tsInt, note := note, calories := cal }
            else e) })
      else
        (.error (.notFound "Entry not found"), s)

/-- DELETE `/api/entries/<id>` (`delete_entry`):
`DELETE FROM entries WHERE id=?` (always succeeds). -/
def deleteEntry (s : Store) (entryId : Nat) : Store :=
  { s with entries := s.entries.filter (fun e => !(e.id == entryId)) }

/-- POST `/api/entries/clear` (`clear_day`):
`DELETE FROM entries WHERE day=?` (always succeeds). -/
def clearDay (s : Store) (day : String) : Store :=
  { s with entries := s.entries.filter (fun e => !(e.day == day)) }

/-- Store states reachable from a fresh database through the mutating
route handlers (failed requests leave the store as they found it). -/
inductive Reachable : Store → Prop where
  | init : Reachable store0
  | add (s : Store) (r : Request) : Reachable s → Reachable (addEntry s r).2
  | update (s : Store) (entryId : Nat) (r : Request) :
      Reachable s → Reachable (updateEntry s entryId r).2
  | del (s : Store) (entryId : Nat) : Reachable s → Reachable (deleteEntry s entryId)
  | clear (s : Store) (day : String) : Reachable s → Reachable (clearDay s day)

/-- Stable insertion of a row into a list already sorted by `ts`:
the new row goes before the first row with a `≥` timestamp's successor,
i.e. after every strictly-smaller and before every strictly-larger `ts`,
and before equal-`ts` rows only when it precedes them in scan order. -/
def insertByTs (e : Entry) : List Entry → List Entry
  | [] => [e]
  | f :: rest => if e.ts ≤ f.ts then e :: f :: rest else f :: insertByTs e rest

/-- Stable sort of the rows by `ts` (models `ORDER BY ts ASC` applied to
the rows in rowid order). -/
def sortByTs : List Entry → List Entry
  | [] => []
  | e :: rest => insertByTs e (sortByTs rest)

/-- GET `/api/entries` (`get_entries`): `SELECT id, day, meal, ts, note,
calories FROM entries WHERE day=? ORDER BY ts ASC`. -/
def listForDay (s : Store) (day : String) : List Entry :=
  sortByTs (s.entries.filter (fun e => e.day == day))

/-- `sum_calories_between`: `SELECT COALESCE(SUM(calories),0) FROM entries
WHERE day BETWEEN ? AND ?` — SQLite compares TEXT values bytewise, which
on ISO day strings is the lexicographic string order. -/
def sumCaloriesBetween (s : Store) (startDay endDay : String) : Int :=
  (((s.entries.filter (fun e => decide (startDay ≤ e.day ∧ e.day ≤ endDay))).map
    (fun e => e.calories)).sum)

/-- `counts[hour] += 1` on a Python list of length 24. -/
def bumpHour (counts : List Nat) (h : Nat) : List Nat :=
  counts.set h (counts.getD h 0 + 1)

/-- The `for r in rows` loop of `histogram_all`: bump one bucket per
row; the first row whose `ts` makes `fromtimestamp` raise aborts the
loop with the exception (`none`). -/
def histLoop (hourOf : Int → Option (Fin 24)) : List Entry → List Nat → Option (List Nat)
  | [], cs => some cs
  | e :: rest, cs =>
    match hourOf e.ts with
    | none => none
    | some h => histLoop hourOf rest (bumpHour cs h.val)

/-- GET `/api/histogram/all` (`histogram_all`): start from `[0]*24`, and
for every row increment the bucket of the local wall-clock hour of `ts`;
the reported `total_entries` is `sum(counts)`.  `hourOf` abstracts
`datetime.fromtimestamp(ts / 1000.0).hour` (server-local timezone),
which yields a value in `0..23` for in-range timestamps but raises
(`OSError`/`OverflowError`/`ValueError`) for out-of-range ones — such
`ts` values are insertable through the API, and the exception escapes
the handler as an HTTP 500 (`none`). -/
def histogramAll (hourOf : Int → Option (Fin 24)) (s : Store) :
    Option (List Nat × Nat) :=
  match histLoop hourOf s.entries (List.replicate 24 0) with
  | none => none
  | some counts => some (counts, counts.sum)

/-- The hour function of a server running in UTC: hour of day for
timestamps whose second value lies in `datetime`'s supported range
(0001-01-01T00:00:00 .. 9999-12-31T23:59:59 UTC), `none` (raise)
outside it; float rounding at the exact range edges is not modelled.
At `ts = 10^16` ms (year ≈ 318857) `fromtimestamp` raises in every
timezone. -/
def utcHourOf (tsMs : Int) : Option (Fin 24) :=
  if -62135596800000 ≤ tsMs ∧ tsMs < 253402300800000 then
    some ⟨((tsMs.emod 86400000).toNat / 3600000) % 24, Nat.mod_lt _ (by omega)⟩
  else none

/-! ## Dates (`datetime.date`) -/

/-- A Python `datetime.date` value (validity is a separate predicate). -/
structure PyDate where
  year : Nat
  month : Nat
  day : Nat
  deriving DecidableEq, Repr

/-- CPython `datetime._is_leap`. -/
def isLeap (y : Nat) : Bool :=
  y % 4 == 0 && (y % 100 != 0 || y % 400 == 0)

/-- CPython `datetime._days_in_month` (`_DAYS_IN_MONTH` table plus the
February leap-year case). -/
def daysInMonth (y m : Nat) : Nat :=
  if m = 2 ∧ isLeap y then 29
  else [31, 28, 31, 30, 31, 30, 31, 31, 30, 31, 30, 31].getD (m - 1) 0

/-- A representable `datetime.date`: `MINYEAR (1) ≤ year ≤ MAXYEAR
(9999)`, month 1..12, day within the month. -/
def ValidDate (y m d : Nat) : Prop :=
  1 ≤ y ∧ y ≤ 9999 ∧ 1 ≤ m ∧ m ≤ 12 ∧ 1 ≤ d ∧ d ≤ daysInMonth y m

/-- The `date(year, month, day)` constructor: `some` when the arguments
pass its range checks, `none` when it raises `ValueError` (in
particular for `year > MAXYEAR = 9999`). -/
def pyDate? (y m d : Nat) : Option PyDate :=
  if 1 ≤ y ∧ y ≤ 9999 ∧ 1 ≤ m ∧ m ≤ 12 ∧ 1 ≤ d ∧ d ≤ daysInMonth y m then
    some ⟨y, m, d⟩
  else none

/-- Models `d - timedelta(days=1)` on a valid date: the previous calendar
day (CPython computes this through `toordinal`/`fromordinal`). -/
def predDate (d : PyDate) : PyDate :=
  if 1 < d.day then { d with day := d.day - 1 }
  else if 1 < d.month then ⟨d.year, d.month - 1, daysInMonth d.year (d.month - 1)⟩
  else ⟨d.year - 1, 12, 31⟩

/-- Models `d + timedelta(days=1)` on a valid date: the next calendar day. -/
def succDate (d : PyDate) : PyDate :=
  if d.day < daysInMonth d.year d.month then { d with day := d.day + 1 }
  else if d.month < 12 then ⟨d.year, d.month + 1, 1⟩
  else ⟨d.year + 1, 1, 1⟩

/-- `d - timedelta(days=k)`. -/
def subDays : PyDate → Nat → PyDate
  | d, 0 => d
  | d, k + 1 => subDays (predDate d) k

/-- `d + timedelta(days=k)`. -/
def addDays : PyDate → Nat → PyDate
  | d, 0 => d
  | d, k + 1 => addDays (succDate d) k

/-- `month_bounds(d)`: first day of `d`'s month, and the day before the
first day of the next month (rolling December into next January).  The
next month's first day goes through the `date` constructor, so for
December of `MAXYEAR` (9999) `date(start.year + 1, 1, 1)` raises
`ValueError` — modelled as `none`; the exception escapes `summary`
uncaught and surfaces as an HTTP 500. -/
def monthBounds (d : PyDate) : Option (PyDate × PyDate) :=
  let start := { d with day := 1 }
  match (if start.month = 12 then pyDate? (start.year + 1) 1 1
         else pyDate? start.year (start.month + 1) 1) with
  | none => none
  | some nextMonth => some (start, predDate nextMonth)

/-- Days before `month` in `year` (CPython `_days_before_month`). -/
def daysBeforeMonth (y m : Nat) : Nat :=
  (List.range (m - 1)).foldl (fun acc k => acc + daysInMonth y (k + 1)) 0

/-- CPython `date.toordinal()`: day number with 0001-01-01 as day 1. -/
def toOrdinal (d : PyDate) : Nat :=
  365 * (d.year - 1) + (d.year - 1) / 4 - (d.year - 1) / 100 + (d.year - 1) / 400
    + daysBeforeMonth d.year d.month + d.day

/-- CPython `date.weekday()`: Monday is 0. -/
def weekday (d : PyDate) : Nat := (toOrdinal d + 6) % 7

/-- `date.max.toordinal()`, the ordinal of 9999-12-31. -/
def maxOrdinal : Nat := toOrdinal ⟨9999, 12, 31⟩

/-- `d + timedelta(days=k)` as the source sees it: `date + timedelta`
raises `OverflowError` when the result would pass `date.max`
(subtraction toward `date.min` cannot occur here: ordinal 1 is a
Monday, so a week's Monday never underflows). -/
def addDays? (d : PyDate) (k : Nat) : Option PyDate :=
  if toOrdinal d + k ≤ maxOrdinal then some (addDays d k) else none

/-- `week_bounds(d)`: Monday of `d`'s week and the following Sunday.
`start + timedelta(days=6)` raises `OverflowError` (escaping `summary`
as an HTTP 500) when the Sunday would fall past 9999-12-31. -/
def weekBounds (d : PyDate) : Option (PyDate × PyDate) :=
  let start := subDays d (weekday d)
  match addDays? start 6 with
  | none => none
  | some e => some (start, e)

/-- Zero-padded two-digit numeral. -/
def pad2 (n : Nat) : String :=
  if n < 10 then "0" ++ toString n else toString n

/-- Zero-padded four-digit numeral. -/
def pad4 (n : Nat) : String :=
  if n < 10 then "000" ++ toString n
  else if n < 100 then "00" ++ toString n
  else if n < 1000 then "0" ++ toString n
  else toString n

/-- `date.isoformat()`. -/
def PyDate.iso (d : PyDate) : String :=
  pad4 d.year ++ "-" ++ pad2 d.month ++ "-" ++ pad2 d.day

/-! ## `parse_iso_day` (`datetime.strptime(day, "%Y-%m-%d").date()`)

CPython's `_strptime` compiles `"%Y-%m-%d"` to the regex
`(?P<Y>\d\d\d\d)-(?P<m>1[0-2]|0[1-9]|[1-9])-(?P<d>3[01]|[12]\d|0[1-9]|[1-9])`,
requires it to consume the whole string, and then validates the fields
through the `date` constructor.  Against the literal separators `-` the
backtracking regex accepts exactly: a 4-digit year, a 1- or 2-digit month
denoting 1..12, and a 1- or 2-digit day, with `date(y, m, d)` then
requiring `1 ≤ y` and `d ≤ days_in_month(y, m)`. -/

/-- `parse_iso_day` / `datetime.strptime(s, "%Y-%m-%d").date()`;
`none` models the `ValueError`.  The year is the digit run before the
first dash (the regex demands exactly 4 digits), month and day are the
digit runs after it (1 or 2 digits each), nothing may remain, and the
`date` constructor checks `1 ≤ y` and the month/day ranges. -/
def pyParseIsoDay (s : String) : Option PyDate :=
  match s.data.dropWhile Char.isDigit with
  | c1 :: r2 =>
    if c1 = '-' then
      match r2.dropWhile Char.isDigit with
      | c2 :: r4 =>
        if c2 = '-' then
          if r4.dropWhile Char.isDigit = []
              ∧ (s.data.takeWhile Char.isDigit).length = 4
              ∧ 1 ≤ (r2.takeWhile Char.isDigit).length
              ∧ (r2.takeWhile Char.isDigit).length ≤ 2
              ∧ 1 ≤ (r4.takeWhile Char.isDigit).length
              ∧ (r4.takeWhile Char.isDigit).length ≤ 2
              ∧ 1 ≤ natOfDigits (s.data.takeWhile Char.isDigit)
              ∧ 1 ≤ natOfDigits (r2.takeWhile Char.isDigit)
              ∧ natOfDigits (r2.takeWhile Char.isDigit) ≤ 12
              ∧ 1 ≤ natOfDigits (r4.takeWhile Char.isDigit)
              ∧ natOfDigits (r4.takeWhile Char.isDigit)
                  ≤ daysInMonth (natOfDigits (s.data.takeWhile Char.isDigit))
                      (natOfDigits (r2.takeWhile Char.isDigit))
          then
            some ⟨natOfDigits (s.data.takeWhile Char.isDigit),
                  natOfDigits (r2.takeWhile Char.isDigit),
                  natOfDigits (r4.takeWhile Char.isDigit)⟩
          else none
        else none
      | [] => none
    else none
  | [] => none

/-- The summary payload of GET `/api/summary`. -/
structure SummaryOut where
  day : String
  dayTotal : Int
  weekStart : String
  weekEnd : String
  weekTotal : Int
  monthStart : String
  monthEnd : String
  monthTotal : Int
  allTotal : Int
  deriving DecidableEq, Repr

/-- GET `/api/summary` (`summary`): 400 when `parse_iso_day` raises
(the only exception the handler catches), an uncaught exception
(HTTP 500) when `week_bounds` or `month_bounds` raises at the MAXYEAR
edge, otherwise the day/week/month/all-time calorie totals. -/
def summaryRoute (s : Store) (dayStr : String) : Except ApiError SummaryOut :=
  match pyParseIsoDay dayStr with
  | none => .error (.badRequest "Invalid day. Use YYYY-MM-DD")
  | some d =>
    match weekBounds d with
    | none => .error .serverError
    | some wb =>
      match monthBounds d with
      | none => .error .serverError
      | some mb =>
        .ok
          { day := dayStr
            dayTotal := sumCaloriesBetween s d.iso d.iso
            weekStart := wb.1.iso
            weekEnd := wb.2.iso
            weekTotal := sumCaloriesBetween s wb.1.iso wb.2.iso
            monthStart := mb.1.iso
            monthEnd := mb.2.iso
            monthTotal := sumCaloriesBetween s mb.1.iso mb.2.iso
            allTotal := (s.entries.map (fun e => e.calories)).sum }

/-- The last calendar day of a month, written as the specification states
it: 31 for January, March, May, July, August, October, December; 30 for
April, June, September, November; 29 for February in a Gregorian leap
year and 28 otherwise. -/
def lastDayOfMonthSpec (y m : Nat) : Nat :=
  if m = 1 ∨ m = 3 ∨ m = 5 ∨ m = 7 ∨ m = 8 ∨ m = 10 ∨ m = 12 then 31
  else if m = 4 ∨ m = 6 ∨ m = 9 ∨ m = 11 then 30
  else if (y % 4 = 0 ∧ y % 100 ≠ 0) ∨ y % 400 = 0 then 29
  else 28

/-- A request body the handlers accept: nonempty trimmed `day` and
`meal`, a present `ts` on which `int(...)` succeeds, and a `calories`
value that does not blow up `int(...)` with an uncaught error. -/
def ValidBody (r : Request) : Prop :=
  pyStrip r.day ≠ "" ∧ pyStrip r.meal ≠ "" ∧ (coerceTs r.ts).isOk = true
    ∧ calRaises r.calories = false

instance (r : Request) : Decidable (ValidBody r) := by
  unfold ValidBody
  infer_instance

/-- A string with no leading and no trailing whitespace. -/
def noEdgeWS (s : String) : Bool :=
  (match s.data.head? with
   | some c => !c.isWhitespace
   | none => true)
  && (match s.data.getLast? with
      | some c => !c.isWhitespace
      | none => true)

/-- `true` exactly on a 404 response. -/
def isNotFound : Except ApiError Unit → Bool
  | .error (.notFound _) => true
  | _ => false

/-- `true` exactly on a 400 response of the add-entry endpoint. -/
def isBadRequestA : Except ApiError Nat → Bool
  | .error (.badRequest _) => true
  | _ => false

/-- Rows of a day's listing ordered by timestamp with ties broken by id
(insertion order). -/
def TsIdOrder (a b : Entry) : Prop :=
  a.ts < b.ts ∨ (a.ts = b.ts ∧ a.id < b.id)

/-- The claim's "strict YYYY-MM-DD form": exactly four digits, a dash,
exactly two digits, a dash, exactly two digits. -/
def specStrictYMD (s : String) : Bool :=
  match s.data with
  | [y1, y2, y3, y4, d1, m1, m2, d2, dd1, dd2] =>
      y1.isDigit && y2.isDigit && y3.isDigit && y4.isDigit && (d1 == '-') &&
      m1.isDigit && m2.isDigit && (d2 == '-') && dd1.isDigit && dd2.isDigit
  | _ => false

/-- `true` exactly on a 400 response of the summary endpoint. -/
def isBadRequest : Except ApiError SummaryOut → Bool
  | .error (.badRequest _) => true
  | _ => false

/-- The strings `strptime(s, "%Y-%m-%d")` accepts, stated declaratively:
a 4-digit year, a dash, a 1- or 2-digit month, a dash, and a 1- or
2-digit day, denoting a representable date (year ≥ 1, month 1..12, day
within the month). -/
def acceptableDay (s : String) : Prop :=
  ∃ ys ms ds : List Char,
    s.data = ys ++ '-' :: (ms ++ '-' :: ds)
    ∧ (∀ c ∈ ys, c.isDigit = true)
    ∧ (∀ c ∈ ms, c.isDigit = true)
    ∧ (∀ c ∈ ds, c.isDigit = true)
    ∧ ys.length = 4
    ∧ 1 ≤ ms.length ∧ ms.length ≤ 2
    ∧ 1 ≤ ds.length ∧ ds.length ≤ 2
    ∧ 1 ≤ natOfDigits ys
    ∧ 1 ≤ natOfDigits ms ∧ natOfDigits ms ≤ 12
    ∧ 1 ≤ natOfDigits ds
    ∧ natOfDigits ds ≤ daysInMonth (natOfDigits ys) (natOfDigits ms)

/-! ## Helper lemmas -/

theorem sum_map_filter_eq_sum_ite (l : List Entry) (p : Entry → Prop) [DecidablePred p] :
    ((l.filter (fun e => decide (p e))).map (fun e => e.calories)).sum
      = (l.map (fun e => if p e then e.calories else 0)).sum := by
  induction l with
  | nil => rfl
  | cons e t ih => by_cases h : p e <;> simp [List.filter_cons, h, ih]

theorem map_eq_self_of_id (l : List Entry) (f : Entry → Entry) (h : ∀ x ∈ l, f x = x) :
    l.map f = l := by
  induction l with
  | nil => rfl
  | cons a t ih => simp only [List.map_cons, h a (by simp), ih fun x hx => h x (by simp [hx])]

/-- Shape of a successful validation: the values bound into the SQL
statement are exactly the trimmed/coerced request fields, and neither
coercion raised. -/
theorem checkReq_ok_shape (r : Request) (q : String × String × Int × String × Int)
    (h : checkReq r = .ok q) :
    q.1 = pyStrip r.day ∧ q.2.1 = pyStrip r.meal ∧ coerceTs r.ts = .ok q.2.2.1 ∧
    q.2.2.2.1 = pyStrip r.note ∧ q.2.2.2.2 = coerceCal r.calories ∧
    calRaises r.calories = false := by
  unfold checkReq at h
  by_cases hcond : pyStrip r.day = "" ∨ pyStrip r.meal = "" ∨ r.ts.isNone = true
  · rw [if_pos hcond] at h
    exact absurd h (by simp)
  · rw [if_neg hcond] at h
    cases hct : coerceTs r.ts with
    | caught => rw [hct] at h; exact absurd h (by simp)
    | uncaught => rw [hct] at h; exact absurd h (by simp)
    | ok t =>
      rw [hct] at h
      dsimp only at h
      by_cases hcal : calRaises r.calories = true
      · rw [if_pos hcal] at h
        exact absurd h (by simp)
      · rw [if_neg hcal] at h
        simp only [Except.ok.injEq] at h
        subst h
        exact ⟨rfl, rfl, rfl, rfl, rfl, Bool.eq_false_iff.mpr hcal⟩

theorem checkReq_error_of_invalid (r : Request)
    (h : pyStrip r.day = "" ∨ pyStrip r.meal = "" ∨ r.ts = TsField.missing ∨
      coerceTs r.ts = .caught) :
    ∃ msg, checkReq r = .error (.badRequest msg) := by
  unfold checkReq
  split
  · exact ⟨"Missing day/meal/ts", rfl⟩
  · rename_i hcond
    rw [not_or, not_or] at hcond
    obtain ⟨hday, hmeal, hnone⟩ := hcond
    have hts : coerceTs r.ts = .caught := by
      rcases h with h | h | h | h
      · exact absurd h hday
      · exact absurd h hmeal
      · exact absurd (h ▸ rfl) hnone
      · exact h
    rw [hts]
    exact ⟨"ts must be an integer (unix ms)", rfl⟩

/-- `ts` is present: its coercion outcome determines whether the
`ts is None` check can have fired. -/
theorem tsIsNone_false_of_not_caught (r : Request) (h : coerceTs r.ts ≠ .caught) :
    r.ts.isNone = false := by
  cases hmt : r.ts
  case missing => rw [hmt] at h; exact absurd rfl h
  all_goals rfl

theorem checkReq_serverError_of_uncaught (r : Request)
    (hday : pyStrip r.day ≠ "") (hmeal : pyStrip r.meal ≠ "")
    (hts : coerceTs r.ts = .uncaught) :
    checkReq r = .error .serverError := by
  have hnone : r.ts.isNone = false :=
    tsIsNone_false_of_not_caught r (by rw [hts]; exact fun hx => nomatch hx)
  unfold checkReq
  rw [if_neg (by rw [not_or, not_or]; exact ⟨hday, hmeal, by rw [hnone]; simp⟩), hts]

theorem checkReq_ok_iff_validBody (r : Request) :
    (∃ q, checkReq r = .ok q) ↔ ValidBody r := by
  constructor
  · rintro ⟨q, hq⟩
    obtain ⟨-, -, hts, -, -, hcal⟩ := checkReq_ok_shape r q hq
    unfold checkReq at hq
    split at hq
    · exact absurd hq (by simp)
    · rename_i hcond
      rw [not_or, not_or] at hcond
      exact ⟨hcond.1, hcond.2.1, by rw [hts]; rfl, hcal⟩
  · rintro ⟨hday, hmeal, hts, hcal⟩
    cases hct : coerceTs r.ts with
    | caught => rw [hct] at hts; exact absurd hts (by simp [CoerceOut.isOk])
    | uncaught => rw [hct] at hts; exact absurd hts (by simp [CoerceOut.isOk])
    | ok t =>
      refine ⟨(pyStrip r.day, pyStrip r.meal, t, pyStrip r.note, coerceCal r.calories), ?_⟩
      have hnone : r.ts.isNone = false :=
        tsIsNone_false_of_not_caught r (by rw [hct]; exact fun hx => nomatch hx)
      unfold checkReq
      rw [if_neg (by rw [not_or, not_or]; exact ⟨hday, hmeal, by rw [hnone]; simp⟩), hct]
      dsimp only
      rw [if_neg (by rw [hcal]; simp)]

/-- The structural store invariant: rows are in strictly increasing id
order and every id is below the AUTOINCREMENT counter. -/
theorem reachable_wf (s : Store) (h : Reachable s) :
    s.entries.Pairwise (fun a b => a.id < b.id) ∧ ∀ e ∈ s.entries, e.id < s.nextId := by
  induction h with
  | init => exact ⟨List.Pairwise.nil, by simp [store0]⟩
  | add s r _ ih =>
    cases hc : checkReq r with
    | error err => simpa [addEntry, hc] using ih
    | ok q =>
      obtain ⟨day, meal, tsInt, note, cal⟩ := q
      simp only [addEntry, hc]
      constructor
      · rw [List.pairwise_append]
        refine ⟨ih.1, List.pairwise_singleton _ _, ?_⟩
        intro a ha b hb
        rw [List.mem_singleton] at hb
        subst hb
        exact ih.2 a ha
      · intro e he
        rw [List.mem_append] at he
        rcases he with he | he
        · exact Nat.lt_succ_of_lt (ih.2 e he)
        · rw [List.mem_singleton] at he; subst he; exact Nat.lt_succ_self _
  | update s entryId r _ ih =>
    cases hc : checkReq r with
    | error err => simpa [updateEntry, hc] using ih
    | ok q =>
      obtain ⟨day, meal, tsInt, note, cal⟩ := q
      by_cases hany : s.entries.any (fun e => e.id == entryId) = true
      · have hid : ∀ e : Entry,
            ((fun e => if e.id = entryId then
              { e with day := day, meal := meal, ts := tsInt, note := note, calories := cal }
            else e) e).id = e.id := by
          intro e; by_cases hx : e.id = entryId <;> simp [hx]
        simp only [updateEntry, hc, hany, if_true]
        constructor
        · exact ih.1.map _ (fun a b hab => by rw [hid a, hid b]; exact hab)
        · intro e he
          rw [List.mem_map] at he
          obtain ⟨a, ha, rfl⟩ := he
          rw [hid a]
          exact ih.2 a ha
      · simpa [updateEntry, hc, hany] using ih
  | del s entryId _ ih =>
    refine ⟨ih.1.sublist (List.filter_sublist _), ?_⟩
    intro e he
    exact ih.2 e (List.mem_filter.1 he).1
  | clear s day _ ih =>
    refine ⟨ih.1.sublist (List.filter_sublist _), ?_⟩
    intro e he
    exact ih.2 e (List.mem_filter.1 he).1

theorem coerceCal_nonneg (c : CalField) : 0 ≤ coerceCal c := by
  unfold coerceCal
  cases c with
  | missing => exact le_refl 0
  | intVal i => dsimp only; split <;> omega
  | finiteFloat t => dsimp only; split <;> omega
  | infFloat => exact le_refl 0
  | nanFloat => exact le_refl 0
  | numStr i => dsimp only; split <;> omega
  | badStr => exact le_refl 0
  | nonCoercible => exact le_refl 0

end FoodTracker

namespace FoodTracker

theorem daysInMonth_eq_spec (y m : Nat) (h1 : 1 ≤ m) (h2 : m ≤ 12) :
    daysInMonth y m = lastDayOfMonthSpec y m := by
  have hleap : isLeap y = true ↔ (y % 4 = 0 ∧ y % 100 ≠ 0) ∨ y % 400 = 0 := by
    simp only [isLeap, Bool.and_eq_true, beq_iff_eq, Bool.or_eq_true, bne_iff_ne, ne_eq]
    omega
  by_cases hc : (y % 4 = 0 ∧ y % 100 ≠ 0) ∨ y % 400 = 0
  · have hl : isLeap y = true := hleap.mpr hc
    unfold daysInMonth lastDayOfMonthSpec
    interval_cases m <;> simp_all +decide
  · have hl : isLeap y = false := by
      rw [Bool.eq_false_iff]
      exact fun hx => hc (hleap.mp hx)
    unfold daysInMonth lastDayOfMonthSpec
    interval_cases m <;>
      (simp_all +decide
       try rw [if_neg (by rintro ⟨h4, h100⟩; exact h100 (hc.1 h4))])

/-- C8 counterexample: `month_bounds` does not return a pair for every
date.  December of `MAXYEAR` (9999) is a representable date, yet
`date(start.year + 1, 1, 1)` raises `ValueError`: `month_bounds`
returns nothing and `GET /api/summary?day=9999-12-15` answers 500. -/
theorem month_bounds_claim_false :
    ValidDate 9999 12 15
  ∧ monthBounds ⟨9999, 12, 15⟩ = none
  ∧ summaryRoute store0 "9999-12-15" = .error .serverError :=
  ⟨by unfold ValidDate; decide, rfl, rfl⟩

/-- C8 (amended): for every valid date except those in December of
`MAXYEAR` (9999), `month_bounds` returns the first day of the date's
month and its correct last calendar day (28/29/30/31, with leap years
handled), including the December-to-next-January rollover; for December
9999 the next-January construction raises `ValueError` (surfaced as an
HTTP 500 from `/api/summary`). -/
theorem one_le_daysInMonth (y m : Nat) (h1 : 1 ≤ m) (h2 : m ≤ 12) :
    1 ≤ daysInMonth y m := by
  unfold daysInMonth
  split
  · omega
  · interval_cases m <;> decide

theorem pyDate?_eq_some (y m d : Nat) (h : ValidDate y m d) :
    pyDate? y m d = some ⟨y, m, d⟩ := by
  unfold ValidDate at h
  unfold pyDate?
  rw [if_pos h]

theorem month_bounds_spec (y m d : Nat) (h : ValidDate y m d) :
    (¬ (m = 12 ∧ y = 9999) →
      monthBounds ⟨y, m, d⟩ = some (⟨y, m, 1⟩, ⟨y, m, lastDayOfMonthSpec y m⟩))
  ∧ ((m = 12 ∧ y = 9999) → monthBounds ⟨y, m, d⟩ = none) := by
  obtain ⟨hy, hy2, hm1, hm12, -, -⟩ := h
  constructor
  · intro hne
    unfold monthBounds
    dsimp only
    by_cases hm : m = 12
    · subst hm
      have hy9 : y + 1 ≤ 9999 := by
        by_cases hy99 : y = 9999
        · exact absurd ⟨rfl, hy99⟩ hne
        · omega
      rw [if_pos rfl,
        pyDate?_eq_some (y + 1) 1 1 ⟨by omega, hy9, by omega, by omega, by omega,
          by simp [daysInMonth]⟩]
      dsimp only
      unfold predDate
      norm_num
      simp [lastDayOfMonthSpec]
    · rw [if_neg hm,
        pyDate?_eq_some y (m + 1) 1 ⟨hy, hy2, by omega, by omega, by omega,
          one_le_daysInMonth y (m + 1) (by omega) (by omega)⟩]
      dsimp only
      unfold predDate
      rw [if_neg (by dsimp only; omega), if_pos (by dsimp only; omega)]
      simp [daysInMonth_eq_spec y m hm1 hm12]
  · rintro ⟨hm, hy9⟩
    subst hm
    subst hy9
    rfl

/-- C8 witness: February 2024 (a leap year) has bounds
2024-02-01 .. 2024-02-29. -/
theorem month_bounds_spec_witness :
    monthBounds ⟨2024, 2, 10⟩ = some (⟨2024, 2, 1⟩, ⟨2024, 2, lastDayOfMonthSpec 2024 2⟩) :=
  (month_bounds_spec 2024 2 10 (by unfold ValidDate; decide)).1 (by decide)

theorem length_bumpHour (cs : List Nat) (h : Nat) : (bumpHour cs h).length = cs.length :=
  List.length_set cs h _

theorem sum_bumpHour (cs : List Nat) (h : Nat) (hh : h < cs.length) :
    (bumpHour cs h).sum = cs.sum + 1 := by
  induction cs generalizing h with
  | nil => simp at hh
  | cons c t ih =>
    cases h with
    | zero => simp [bumpHour]; omega
    | succ k =>
      have hk : k < t.length := by simpa using hh
      have ht := ih k hk
      simp only [bumpHour, List.getD, List.get?_cons_succ, List.set_cons_succ,
        List.sum_cons] at ht ⊢
      omega

theorem getD_bumpHour (cs : List Nat) (h i : Nat) :
    (bumpHour cs h).getD i 0 = if i = h then cs.getD h 0 + (if h < cs.length then 1 else 0)
      else cs.getD i 0 := by
  induction cs generalizing h i with
  | nil => simp [bumpHour]
  | cons c t ih =>
    cases h with
    | zero =>
      cases i with
      | zero => simp [bumpHour]
      | succ j => simp [bumpHour]
    | succ k =>
      cases i with
      | zero => simp [bumpHour, List.set]
      | succ j =>
        have ht := ih k j
        simp only [bumpHour, List.getD, List.get?_cons_succ, List.set_cons_succ,
          List.length_cons] at ht ⊢
        rw [ht]
        simp [Nat.succ_lt_succ_iff]

theorem histLoop_isSome_iff (hourOf : Int → Option (Fin 24)) (l : List Entry)
    (cs : List Nat) :
    (histLoop hourOf l cs).isSome = true ↔ ∀ e ∈ l, (hourOf e.ts).isSome = true := by
  induction l generalizing cs with
  | nil => simp [histLoop]
  | cons e t ih =>
    unfold histLoop
    cases hh : hourOf e.ts with
    | none => simp [hh]
    | some h => simp [hh, ih]

theorem histLoop_length (hourOf : Int → Option (Fin 24)) (l : List Entry) :
    ∀ cs cs', histLoop hourOf l cs = some cs' → cs'.length = cs.length := by
  induction l with
  | nil =>
    intro cs cs' h
    simp only [histLoop, Option.some.injEq] at h
    rw [← h]
  | cons e t ih =>
    intro cs cs' h
    unfold histLoop at h
    cases hh : hourOf e.ts with
    | none => rw [hh] at h; exact absurd h (by simp)
    | some hr =>
      rw [hh] at h
      rw [ih _ _ h, length_bumpHour]

theorem histLoop_sum (hourOf : Int → Option (Fin 24)) (l : List Entry) :
    ∀ cs cs', cs.length = 24 → histLoop hourOf l cs = some cs' →
      cs'.sum = cs.sum + l.length := by
  induction l with
  | nil =>
    intro cs cs' _ h
    simp only [histLoop, Option.some.injEq] at h
    rw [← h, List.length_nil, Nat.add_zero]
  | cons e t ih =>
    intro cs cs' hcs h
    unfold histLoop at h
    cases hh : hourOf e.ts with
    | none => rw [hh] at h; exact absurd h (by simp)
    | some hr =>
      rw [hh] at h
      have := ih _ _ (by rw [length_bumpHour, hcs]) h
      rw [this, sum_bumpHour _ _ (by rw [hcs]; exact hr.isLt)]
      simp only [List.length_cons]
      omega

theorem histLoop_getD (hourOf : Int → Option (Fin 24)) (i : Fin 24) (l : List Entry) :
    ∀ cs cs', cs.length = 24 → histLoop hourOf l cs = some cs' →
      cs'.getD i.val 0
        = cs.getD i.val 0 + (l.filter (fun e => hourOf e.ts = some i)).length := by
  induction l with
  | nil =>
    intro cs cs' _ h
    simp only [histLoop, Option.some.injEq] at h
    rw [← h]
    simp
  | cons e t ih =>
    intro cs cs' hcs h
    unfold histLoop at h
    cases hh : hourOf e.ts with
    | none => rw [hh] at h; exact absurd h (by simp)
    | some hr =>
      rw [hh] at h
      have hstep := ih _ _ (by rw [length_bumpHour, hcs]) h
      rw [hstep, getD_bumpHour]
      by_cases hhi : hr = i
      · subst hhi
        rw [if_pos rfl, if_pos (by rw [hcs]; exact hr.isLt),
          List.filter_cons_of_pos (by simp [hh])]
        simp only [List.length_cons]
        omega
      · rw [if_neg (fun hv => hhi (Fin.ext hv.symm)),
          List.filter_cons_of_neg (by simp [hh]; exact fun hx => hhi (Fin.ext (by rw [hx])))]

/-- C2 (amended): the all-time histogram returns a payload exactly when
the local-hour computation succeeds on every stored entry (otherwise the
exception escapes as an HTTP 500 and no array is produced); whenever it
does return, the payload is an array of exactly 24 counts, the count in
bucket `i` is exactly the number of entries whose `ts` maps to local
hour `i` (each entry counted in exactly one bucket), and the reported
total equals the number of entries. -/
theorem hour_histogram_all_spec (hourOf : Int → Option (Fin 24)) (s : Store) :
    ((histogramAll hourOf s).isSome = true ↔ ∀ e ∈ s.entries, (hourOf e.ts).isSome = true)
  ∧ ∀ counts total, histogramAll hourOf s = some (counts, total) →
      counts.length = 24
      ∧ total = s.entries.length
      ∧ ∀ i : Fin 24, counts.getD i.val 0
          = (s.entries.filter (fun e => hourOf e.ts = some i)).length := by
  have hz : ∀ (n j : Nat), (List.replicate n (0 : Nat)).getD j 0 = 0 := by
    intro n
    induction n with
    | zero => intro j; rfl
    | succ k ih =>
      intro j
      cases j with
      | zero => rfl
      | succ j' => simp only [List.replicate_succ, List.getD, List.get?_cons_succ]; exact ih j'
  constructor
  · rw [← histLoop_isSome_iff hourOf s.entries (List.replicate 24 0)]
    unfold histogramAll
    cases hl : histLoop hourOf s.entries (List.replicate 24 0) <;> simp
  · intro counts total hsome
    unfold histogramAll at hsome
    cases hl : histLoop hourOf s.entries (List.replicate 24 0) with
    | none => rw [hl] at hsome; exact absurd hsome (by simp)
    | some cs =>
      rw [hl] at hsome
      simp only [Option.some.injEq, Prod.mk.injEq] at hsome
      obtain ⟨hcounts, htotal⟩ := hsome
      subst hcounts
      refine ⟨?_, ?_, ?_⟩
      · rw [histLoop_length hourOf s.entries _ _ hl, List.length_replicate]
      · rw [← htotal, histLoop_sum hourOf s.entries _ _ (List.length_replicate 24 0) hl]
        simp
      · intro i
        rw [histLoop_getD hourOf i s.entries _ _ (List.length_replicate 24 0) hl,
          hz 24 i.val, Nat.zero_add]

/-- C2 counterexample: a `ts` of `10^16` milliseconds (year ≈ 318857) is
insertable through the API, but `fromtimestamp` raises on it, so
`/api/histogram/all` answers 500 and returns no 24-count array. -/
theorem hour_histogram_claim_false :
    (addEntry store0 ⟨"2024-03-10", "Lunch", .intVal 10000000000000000, "", .missing⟩).1
      = .ok 1
  ∧ histogramAll utcHourOf
      (addEntry store0 ⟨"2024-03-10", "Lunch", .intVal 10000000000000000, "", .missing⟩).2
      = none :=
  ⟨rfl, rfl⟩

/-- C2 witness: on a store holding entries at UTC hours 0 and 13, the
histogram payload has 24 counts, totals the 2 entries, and bucket 13
holds exactly the hour-13 entries. -/
theorem hour_histogram_all_spec_witness :
    ([1, 0, 0, 0, 0, 0, 0, 0, 0, 0, 0, 0, 0, 1, 0, 0, 0, 0, 0, 0, 0, 0, 0, 0]
        : List Nat).length = 24
  ∧ 2 = (addEntry (addEntry store0 ⟨"2024-03-10", "Lunch", .intVal 0, "", .missing⟩).2
        ⟨"2024-03-10", "Dinner", .intVal 46800000, "", .missing⟩).2.entries.length
  ∧ ([1, 0, 0, 0, 0, 0, 0, 0, 0, 0, 0, 0, 0, 1, 0, 0, 0, 0, 0, 0, 0, 0, 0, 0]
        : List Nat).getD (13 : Fin 24).val 0
      = ((addEntry (addEntry store0 ⟨"2024-03-10", "Lunch", .intVal 0, "", .missing⟩).2
          ⟨"2024-03-10", "Dinner", .intVal 46800000, "", .missing⟩).2.entries.filter
            (fun e => utcHourOf e.ts = some (13 : Fin 24))).length :=
  have h := (hour_histogram_all_spec utcHourOf
    (addEntry (addEntry store0 ⟨"2024-03-10", "Lunch", .intVal 0, "", .missing⟩).2
      ⟨"2024-03-10", "Dinner", .intVal 46800000, "", .missing⟩).2).2
    [1, 0, 0, 0, 0, 0, 0, 0, 0, 0, 0, 0, 0, 1, 0, 0, 0, 0, 0, 0, 0, 0, 0, 0] 2 rfl
  ⟨h.1, h.2.1, h.2.2 (13 : Fin 24)⟩

/-- C9: `calories` inputs are clamped: negative integers become 0,
non-coercible values become 0, an absent value defaults to 0; hence in
every reachable store state every row satisfies `calories ≥ 0`. -/
theorem calories_nonneg_invariant :
    coerceCal (CalField.intVal (-5)) = 0
  ∧ coerceCal CalField.nonCoercible = 0
  ∧ coerceCal CalField.missing = 0
  ∧ ∀ s : Store, Reachable s → ∀ e ∈ s.entries, 0 ≤ e.calories := by
  refine ⟨by decide, rfl, rfl, ?_⟩
  intro s h
  induction h with
  | init => intro e he; simp [store0] at he
  | add s r _ ih =>
    cases hc : checkReq r with
    | error err => simpa [addEntry, hc] using ih
    | ok q =>
      obtain ⟨day, meal, tsInt, note, cal⟩ := q
      have hcal : cal = coerceCal r.calories := (checkReq_ok_shape r _ hc).2.2.2.2.1
      simp only [addEntry, hc]
      intro e he
      rw [List.mem_append] at he
      rcases he with he | he
      · exact ih e he
      · rw [List.mem_singleton] at he
        subst he
        rw [hcal]
        exact coerceCal_nonneg r.calories
  | update s entryId r _ ih =>
    cases hc : checkReq r with
    | error err => simpa [updateEntry, hc] using ih
    | ok q =>
      obtain ⟨day, meal, tsInt, note, cal⟩ := q
      have hcal : cal = coerceCal r.calories := (checkReq_ok_shape r _ hc).2.2.2.2.1
      by_cases hany : s.entries.any (fun e => e.id == entryId) = true
      · simp only [updateEntry, hc, hany, if_true]
        intro e he
        rw [List.mem_map] at he
        obtain ⟨a, ha, rfl⟩ := he
        by_cases hx : a.id = entryId
        · rw [if_pos hx, hcal]
          exact coerceCal_nonneg r.calories
        · rw [if_neg hx]
          exact ih a ha
      · simpa [updateEntry, hc, hany] using ih
  | del s entryId _ ih =>
    intro e he
    exact ih e (List.mem_filter.1 he).1
  | clear s day _ ih =>
    intro e he
    exact ih e (List.mem_filter.1 he).1

/-- C9 witness: after adding an entry whose `calories` input is the
negative integer −100, the stored row has nonnegative (indeed zero)
calories. -/
theorem calories_nonneg_invariant_witness :
    0 ≤ (Entry.mk 1 "2024-03-10" "Lunch" 0 "" 0).calories :=
  calories_nonneg_invariant.2.2.2
    (addEntry store0 ⟨"2024-03-10", "Lunch", .intVal 0, "", .intVal (-100)⟩).2
    (Reachable.add store0 ⟨"2024-03-10", "Lunch", .intVal 0, "", .intVal (-100)⟩ Reachable.init)
    (Entry.mk 1 "2024-03-10" "Lunch" 0 "" 0)
    (by decide)

theorem head?_dropWhile_false (p : Char → Bool) (l : List Char) :
    ∀ c, (l.dropWhile p).head? = some c → p c = false := by
  induction l with
  | nil => intro c hc; simp at hc
  | cons a t ih =>
    intro c hc
    by_cases hp : p a = true
    · rw [List.dropWhile_cons_of_pos hp] at hc
      exact ih c hc
    · rw [List.dropWhile_cons_of_neg hp] at hc
      simp only [List.head?_cons, Option.some.injEq] at hc
      subst hc
      exact Bool.not_eq_true _ ▸ hp

theorem head?_of_isPrefix {l L : List Char} (h : List.IsPrefix L l) (hne : L ≠ []) :
    L.head? = l.head? := by
  obtain ⟨t, rfl⟩ := h
  cases L with
  | nil => exact absurd rfl hne
  | cons a b => rfl

theorem pyStrip_noEdgeWS (t : String) : noEdgeWS (pyStrip t) = true := by
  unfold noEdgeWS pyStrip
  set l1 := t.data.dropWhile Char.isWhitespace with hl1
  set L := (l1.reverse.dropWhile Char.isWhitespace).reverse with hL
  have hlast : ∀ c, L.getLast? = some c → c.isWhitespace = false := by
    intro c hc
    rw [hL, List.getLast?_reverse] at hc
    exact head?_dropWhile_false _ _ c hc
  have hpre : List.IsPrefix L l1 := by
    have h0 : List.IsSuffix (l1.reverse.dropWhile Char.isWhitespace) l1.reverse :=
      List.dropWhile_suffix _
    have h1 := h0.reverse
    rwa [List.reverse_reverse] at h1
  have hhead : ∀ c, L.head? = some c → c.isWhitespace = false := by
    intro c hc
    have hne : L ≠ [] := by intro hnil; rw [hnil] at hc; simp at hc
    rw [head?_of_isPrefix hpre hne] at hc
    exact head?_dropWhile_false _ _ c hc
  rw [Bool.and_eq_true]
  constructor
  · cases hh : L.head? with
    | none => rfl
    | some c =>
      rw [Bool.not_eq_true']
      exact hhead c hh
  · cases hg : L.getLast? with
    | none => rfl
    | some d =>
      rw [Bool.not_eq_true']
      exact hlast d hg

/-- C10: `add` and `update` store the trimmed note (and a
whitespace-only note trims to the empty string), so in every reachable
store state no row's note has leading or trailing whitespace. -/
theorem note_trimmed_invariant :
    (∀ (s : Store) (r : Request) (q : String × String × Int × String × Int),
        checkReq r = .ok q →
        (addEntry s r).2.entries
          = s.entries ++ [⟨s.nextId, q.1, q.2.1, q.2.2.1, pyStrip r.note, q.2.2.2.2⟩])
  ∧ (∀ (t : String), (∀ c ∈ t.data, c.isWhitespace = true) → pyStrip t = "")
  ∧ (∀ s : Store, Reachable s → ∀ e ∈ s.entries, noEdgeWS e.note = true) := by
  refine ⟨?_, ?_, ?_⟩
  · intro s r q hq
    obtain ⟨-, -, -, hnote, -⟩ := checkReq_ok_shape r q hq
    obtain ⟨day, meal, tsInt, note, cal⟩ := q
    simp only [addEntry, hq]
    simp only at hnote
    rw [hnote]
  · intro t ht
    unfold pyStrip
    have h1 : t.data.dropWhile Char.isWhitespace = [] :=
      List.dropWhile_eq_nil_iff.2 ht
    rw [h1]
    rfl
  · intro s h
    induction h with
    | init => intro e he; simp [store0] at he
    | add s r _ ih =>
      cases hc : checkReq r with
      | error err => simpa [addEntry, hc] using ih
      | ok q =>
        obtain ⟨day, meal, tsInt, note, cal⟩ := q
        have hnote : note = pyStrip r.note := (checkReq_ok_shape r _ hc).2.2.2.1
        simp only [addEntry, hc]
        intro e he
        rw [List.mem_append] at he
        rcases he with he | he
        · exact ih e he
        · rw [List.mem_singleton] at he
          subst he
          rw [hnote]
          exact pyStrip_noEdgeWS r.note
    | update s entryId r _ ih =>
      cases hc : checkReq r with
      | error err => simpa [updateEntry, hc] using ih
      | ok q =>
        obtain ⟨day, meal, tsInt, note, cal⟩ := q
        have hnote : note = pyStrip r.note := (checkReq_ok_shape r _ hc).2.2.2.1
        by_cases hany : s.entries.any (fun e => e.id == entryId) = true
        · simp only [updateEntry, hc, hany, if_true]
          intro e he
          rw [List.mem_map] at he
          obtain ⟨a, ha, rfl⟩ := he
          by_cases hx : a.id = entryId
          · rw [if_pos hx, hnote]
            exact pyStrip_noEdgeWS r.note
          · rw [if_neg hx]
            exact ih a ha
        · simpa [updateEntry, hc, hany] using ih
    | del s entryId _ ih =>
      intro e he
      exact ih e (List.mem_filter.1 he).1
    | clear s day _ ih =>
      intro e he
      exact ih e (List.mem_filter.1 he).1

/-- C10 witness: the note stored for an add request with note
`"  salmon + rice "` is the trimmed `"salmon + rice"`, which has no
edge whitespace. -/
theorem note_trimmed_invariant_witness :
    noEdgeWS (Entry.mk 1 "2024-03-10" "Lunch" 0 "salmon + rice" 0).note = true :=
  note_trimmed_invariant.2.2
    (addEntry store0 ⟨"2024-03-10", "Lunch", .intVal 0, "  salmon + rice ", .missing⟩).2
    (Reachable.add store0 ⟨"2024-03-10", "Lunch", .intVal 0, "  salmon + rice ", .missing⟩
      Reachable.init)
    (Entry.mk 1 "2024-03-10" "Lunch" 0 "salmon + rice" 0)
    (by decide)

theorem mem_insertByTs (e x : Entry) (l : List Entry) :
    x ∈ insertByTs e l ↔ x = e ∨ x ∈ l := by
  induction l with
  | nil => simp [insertByTs]
  | cons f t ih =>
    unfold insertByTs
    by_cases h : e.ts ≤ f.ts
    · simp only [if_pos h, List.mem_cons]
    · simp only [if_neg h, List.mem_cons, ih]
      tauto

theorem insertByTs_perm (e : Entry) (l : List Entry) : (insertByTs e l).Perm (e :: l) := by
  induction l with
  | nil => exact List.Perm.refl _
  | cons f t ih =>
    unfold insertByTs
    by_cases h : e.ts ≤ f.ts
    · rw [if_pos h]
    · rw [if_neg h]
      exact (ih.cons f).trans (List.Perm.swap e f t)

theorem sortByTs_perm (l : List Entry) : (sortByTs l).Perm l := by
  induction l with
  | nil => exact List.Perm.refl _
  | cons e t ih => exact (insertByTs_perm e (sortByTs t)).trans (ih.cons e)

theorem pairwise_insertByTs (e : Entry) (l : List Entry)
    (hl : l.Pairwise TsIdOrder) (hid : ∀ b ∈ l, e.id < b.id) :
    (insertByTs e l).Pairwise TsIdOrder := by
  induction l with
  | nil => exact List.pairwise_singleton TsIdOrder e
  | cons f t ih =>
    rw [List.pairwise_cons] at hl
    obtain ⟨hf, ht⟩ := hl
    unfold insertByTs
    by_cases h : e.ts ≤ f.ts
    · rw [if_pos h]
      rw [List.pairwise_cons]
      refine ⟨?_, List.pairwise_cons.2 ⟨hf, ht⟩⟩
      intro b hb
      rw [List.mem_cons] at hb
      have hts : e.ts ≤ b.ts := by
        rcases hb with rfl | hb
        · exact h
        · rcases hf b hb with hlt | ⟨heq, -⟩
          · exact le_trans h (le_of_lt hlt)
          · exact le_trans h (le_of_eq heq)
      rcases lt_or_eq_of_le hts with hlt | heq
      · exact Or.inl hlt
      · exact Or.inr ⟨heq, hid b (by rw [List.mem_cons]; exact hb)⟩
    · rw [if_neg h]
      push_neg at h
      rw [List.pairwise_cons]
      constructor
      · intro b hb
        rw [mem_insertByTs] at hb
        rcases hb with rfl | hb
        · exact Or.inl h
        · exact hf b hb
      · exact ih ht (fun b hb => hid b (List.mem_cons_of_mem f hb))

theorem pairwise_sortByTs (l : List Entry) (h : l.Pairwise (fun a b => a.id < b.id)) :
    (sortByTs l).Pairwise TsIdOrder := by
  induction l with
  | nil => exact List.Pairwise.nil
  | cons e t ih =>
    rw [List.pairwise_cons] at h
    exact pairwise_insertByTs e (sortByTs t) (ih h.2)
      (fun b hb => h.1 b ((sortByTs_perm t).subset hb))

/-- C4: for every reachable store state and every day, `list_for_day`
returns exactly the entries whose `day` matches (as a permutation of the
day's rows), ordered by `ts` ascending with equal-`ts` rows in insertion
(ascending id) order. -/
theorem list_for_day_sorted (s : Store) (day : String) (h : Reachable s) :
    (listForDay s day).Perm (s.entries.filter (fun e => e.day == day))
  ∧ (listForDay s day).Pairwise TsIdOrder := by
  refine ⟨sortByTs_perm _, ?_⟩
  exact pairwise_sortByTs _ ((reachable_wf s h).1.sublist (List.filter_sublist _))

/-- C4 witness: after adding two same-day entries with out-of-order
timestamps, the listing is a permutation of the day's rows and is sorted
by the timestamp-then-id order. -/
theorem list_for_day_sorted_witness :
    (listForDay (addEntry (addEntry store0
          ⟨"2024-03-10", "Lunch", .intVal 100, "", .missing⟩).2
          ⟨"2024-03-10", "Breakfast", .intVal 50, "", .missing⟩).2 "2024-03-10").Perm
        ((addEntry (addEntry store0
          ⟨"2024-03-10", "Lunch", .intVal 100, "", .missing⟩).2
          ⟨"2024-03-10", "Breakfast", .intVal 50, "", .missing⟩).2.entries.filter
            (fun e => e.day == "2024-03-10"))
  ∧ (listForDay (addEntry (addEntry store0
          ⟨"2024-03-10", "Lunch", .intVal 100, "", .missing⟩).2
          ⟨"2024-03-10", "Breakfast", .intVal 50, "", .missing⟩).2 "2024-03-10").Pairwise
        TsIdOrder :=
  list_for_day_sorted _ "2024-03-10"
    (Reachable.add _ _ (Reachable.add _ _ Reachable.init))

/-- C7: adding an entry and then successfully updating its id overwrites
all five fields: listing the new day afterwards contains, at that id,
exactly one row carrying exactly the new (trimmed/coerced) field values
and nothing of the old ones. -/
theorem add_update_overwrite (s : Store) (r1 r2 : Request) (entryId : Nat) (s1 s2 : Store)
    (hre : Reachable s)
    (h1 : addEntry s r1 = (.ok entryId, s1))
    (h2 : updateEntry s1 entryId r2 = (.ok (), s2)) :
    ∃ t, coerceTs r2.ts = .ok t ∧
      (listForDay s2 (pyStrip r2.day)).filter (fun e => e.id == entryId)
        = [⟨entryId, pyStrip r2.day, pyStrip r2.meal, t, pyStrip r2.note,
            coerceCal r2.calories⟩] := by
  -- unpack the successful add
  cases hc1 : checkReq r1 with
  | error err => simp only [addEntry, hc1, Prod.mk.injEq, reduceCtorEq, false_and] at h1
  | ok q1 =>
    obtain ⟨day1, meal1, ts1, note1, cal1⟩ := q1
    rw [addEntry, hc1] at h1
    simp only [Prod.mk.injEq, Except.ok.injEq] at h1
    obtain ⟨hid1, hs1⟩ := h1
    -- unpack the successful update
    cases hc2 : checkReq r2 with
    | error err => simp only [updateEntry, hc2, Prod.mk.injEq, reduceCtorEq, false_and] at h2
    | ok q2 =>
      obtain ⟨day2, meal2, ts2, note2, cal2⟩ := q2
      obtain ⟨hd2, hm2, ht2, hn2, hc2', -⟩ := checkReq_ok_shape r2 _ hc2
      simp only at hd2 hm2 ht2 hn2 hc2'
      simp only [updateEntry, hc2] at h2
      by_cases hany : s1.entries.any (fun e => e.id == entryId) = true
      · rw [if_pos hany] at h2
        simp only [Prod.mk.injEq] at h2
        replace h2 := h2.2
        -- ids strictly below the fresh id in the original store
        have hne : ∀ e ∈ s.entries, e.id ≠ entryId := by
          intro e he
          rw [← hid1]
          exact Nat.ne_of_lt ((reachable_wf s hre).2 e he)
        -- the updated table: old rows untouched, the fresh row overwritten
        have hmap : s2.entries
            = s.entries ++ [⟨entryId, day2, meal2, ts2, note2, cal2⟩] := by
          rw [← h2, ← hs1]
          simp only [List.map_append]
          congr 1
          · apply map_eq_self_of_id
            intro e he
            rw [if_neg (hne e he)]
          · simp [hid1]
        refine ⟨ts2, by rw [ht2], ?_⟩
        -- the day-filtered table
        have hday : s2.entries.filter (fun e => e.day == pyStrip r2.day)
            = s.entries.filter (fun e => e.day == pyStrip r2.day)
              ++ [⟨entryId, day2, meal2, ts2, note2, cal2⟩] := by
          rw [hmap, List.filter_append]
          congr 1
          simp [hd2]
        -- filtering the sorted listing by the id keeps exactly the new row
        have hperm : ((listForDay s2 (pyStrip r2.day)).filter
              (fun e => e.id == entryId)).Perm
            ((s2.entries.filter (fun e => e.day == pyStrip r2.day)).filter
              (fun e => e.id == entryId)) :=
          (sortByTs_perm _).filter _
        have htarget : (s2.entries.filter (fun e => e.day == pyStrip r2.day)).filter
              (fun e => e.id == entryId)
            = [⟨entryId, day2, meal2, ts2, note2, cal2⟩] := by
          rw [hday, List.filter_append]
          have hleft : (s.entries.filter (fun e => e.day == pyStrip r2.day)).filter
                (fun e => e.id == entryId) = [] := by
            rw [List.filter_eq_nil_iff]
            intro e he
            have := hne e (List.mem_filter.1 he).1
            simp [this]
          rw [hleft]
          simp
        rw [htarget] at hperm
        rw [List.perm_singleton.1 hperm, hd2, hm2, hn2, hc2']
      · rw [if_neg hany] at h2
        exact absurd h2 (by simp)

/-- C7 witness: add on 2024-03-10 then update to 2024-03-11 with all-new
field values; the listing of the new day holds exactly the new row. -/
theorem add_update_overwrite_witness :
    ∃ t, coerceTs (TsField.intVal 777) = .ok t ∧
      (listForDay (updateEntry (addEntry store0
            ⟨"2024-03-10", "Lunch", .intVal 100, " old ", .intVal 300⟩).2 1
            ⟨"2024-03-11", "Dinner", .intVal 777, " new ", .intVal 450⟩).2
          (pyStrip "2024-03-11")).filter (fun e => e.id == 1)
        = [⟨1, pyStrip "2024-03-11", pyStrip "Dinner", t, pyStrip " new ",
            coerceCal (.intVal 450)⟩] :=
  add_update_overwrite store0
    ⟨"2024-03-10", "Lunch", .intVal 100, " old ", .intVal 300⟩
    ⟨"2024-03-11", "Dinner", .intVal 777, " new ", .intVal 450⟩ 1
    (addEntry store0 ⟨"2024-03-10", "Lunch", .intVal 100, " old ", .intVal 300⟩).2
    (updateEntry (addEntry store0
        ⟨"2024-03-10", "Lunch", .intVal 100, " old ", .intVal 300⟩).2 1
        ⟨"2024-03-11", "Dinner", .intVal 777, " new ", .intVal 450⟩).2
    Reachable.init rfl rfl

end FoodTracker

namespace FoodTracker

theorem takeWhile_append_all (p : Char → Bool) (xs : List Char) (c : Char) (t : List Char)
    (hx : ∀ x ∈ xs, p x = true) (hc : p c = false) :
    (xs ++ c :: t).takeWhile p = xs ∧ (xs ++ c :: t).dropWhile p = c :: t := by
  induction xs with
  | nil => simp [List.takeWhile_cons, List.dropWhile_cons, hc]
  | cons a xs ih =>
    have ha : p a = true := hx a (by simp)
    obtain ⟨h1, h2⟩ := ih (fun x hx' => hx x (by simp [hx']))
    constructor
    · simp [List.takeWhile_cons, ha, h1]
    · simp [List.dropWhile_cons, ha, h2]

theorem pyParseIsoDay_isSome_iff (s : String) :
    (pyParseIsoDay s).isSome = true ↔ acceptableDay s := by
  constructor
  · intro h
    unfold pyParseIsoDay at h
    split at h
    rotate_left
    · exact absurd h (by simp)
    rename_i c1 r2 heq1
    by_cases hch1 : c1 = '-'
    rotate_left
    · rw [if_neg hch1] at h
      exact absurd h (by simp)
    rw [if_pos hch1] at h
    subst hch1
    split at h
    rotate_left
    · exact absurd h (by simp)
    rename_i c2 r4 heq2
    by_cases hch2 : c2 = '-'
    rotate_left
    · rw [if_neg hch2] at h
      exact absurd h (by simp)
    rw [if_pos hch2] at h
    subst hch2
    split at h
    rotate_left
    · exact absurd h (by simp)
    rename_i hcond
    obtain ⟨h5, hy4, hm1, hm2, hd1, hd2, hyv, hmv, hm12, hdv1, hdv2⟩ := hcond
    have hr4 : r4.takeWhile Char.isDigit = r4 := by
      have hx := List.takeWhile_append_dropWhile Char.isDigit r4
      rw [h5, List.append_nil] at hx
      exact hx
    have hr2 : r2 = r2.takeWhile Char.isDigit ++ '-' :: r4.takeWhile Char.isDigit := by
      conv_lhs => rw [← List.takeWhile_append_dropWhile Char.isDigit r2]
      rw [heq2, hr4]
    refine ⟨s.data.takeWhile Char.isDigit, r2.takeWhile Char.isDigit,
      r4.takeWhile Char.isDigit, ?_,
      fun c hc => List.mem_takeWhile_imp hc,
      fun c hc => List.mem_takeWhile_imp hc,
      fun c hc => List.mem_takeWhile_imp hc,
      hy4, hm1, hm2, hd1, hd2, hyv, hmv, hm12, hdv1, hdv2⟩
    conv_lhs => rw [← List.takeWhile_append_dropWhile Char.isDigit s.data, heq1]
    rw [← hr2]
  · rintro ⟨ys, ms, ds, hdec, hys, hms, hds, hy4, hm1, hm2, hd1, hd2,
      hyv, hmv, hm12, hdv1, hdv2⟩
    have hdash : Char.isDigit '-' = false := rfl
    obtain ⟨ht1, hw1⟩ := takeWhile_append_all Char.isDigit ys '-' (ms ++ '-' :: ds) hys hdash
    obtain ⟨ht2, hw2⟩ := takeWhile_append_all Char.isDigit ms '-' ds hms hdash
    have hdds : ds.dropWhile Char.isDigit = [] := List.dropWhile_eq_nil_iff.2 hds
    have htds : ds.takeWhile Char.isDigit = ds := by
      have hx := List.takeWhile_append_dropWhile Char.isDigit ds
      rw [hdds, List.append_nil] at hx
      exact hx
    unfold pyParseIsoDay
    rw [hdec, hw1]
    simp [ht1, hw2, ht2, htds, hdds, hy4, hm1, hm2, hd1, hd2, hyv, hmv, hm12, hdv1, hdv2]

end FoodTracker

namespace FoodTracker

end FoodTracker
